import Mathlib

/-!
# Verification of the gmail-tui Interactive Mail Session Engine

Shallow embedding of the repository `ivanjm3/gmail-tui` (Go): the MIME
content codec (`email.go`, `main.go`) and the Bubble Tea session
controller (`Update` and its per-state handlers).

Modelling conventions:
* Go strings are modelled as Lean `String` (a sequence of runes), except
  where Go's byte-level semantics matter (snippet truncation uses
  `len`/slicing on bytes): there we convert through an explicit UTF-8
  encoder `utf8Encode` to `List Nat` byte lists.
* Go machine integers are modelled as `Nat`/`Int`; no overflow is
  reachable at the magnitudes involved (file sizes vs. 25 MiB).
* The Gmail network service, the terminal widgets (list, viewport,
  textinput, textarea, spinner, help) and `os` filesystem calls are
  external collaborators: network completions are carried by the `Msg`
  events exactly as in the source, widget-internal state is outside the
  session model (delegated updates return the session unchanged), and
  the filesystem is a parameter `FileSystem := String → Option Int`
  giving each path its `os.Stat` size, `none` when `os.Stat`/`os.Open`
  fails.
* Go `unicode.IsSpace/IsLetter/IsNumber` are reproduced exactly on the
  ASCII range; code points above U+007F (whose Unicode tables are not
  reproduced here) are classified as neither, which only affects which
  exotic characters `sanitizeFilename` preserves, not any path or
  ASCII-level property.
-/

namespace GmailTui

/-! ## Byte-level string helpers -/

/-- UTF-8 encoding of one scalar value, as byte values (Go `string` bytes). -/
def charUtf8 (c : Char) : List Nat :=
  let n := c.toNat
  if n < 0x80 then [n]
  else if n < 0x800 then [0xC0 + n / 64, 0x80 + n % 64]
  else if n < 0x10000 then [0xE0 + n / 4096, 0x80 + n / 64 % 64, 0x80 + n % 64]
  else [0xF0 + n / 262144, 0x80 + n / 4096 % 64, 0x80 + n / 64 % 64, 0x80 + n % 64]

/-- The UTF-8 bytes of a string: what Go's `len` and slicing operate on. -/
def utf8Encode (s : String) : List Nat :=
  (s.data.map charUtf8).flatten

/-- Rune count of a string (Go `utf8.RuneCountInString`). -/
def runeCount (s : String) : Nat := s.data.length

/-- Go `strings.HasPrefix` on rune lists. -/
def listStartsWith : List Char → List Char → Bool
  | [], _ => true
  | _ :: _, [] => false
  | p :: ps, c :: cs => p = c && listStartsWith ps cs

/-- Go `strings.HasPrefix(s, pat)`. -/
def strStartsWith (s pat : String) : Bool := listStartsWith pat.data s.data

/-- Go `strings.Split(s, sep)` for a one-rune separator. -/
def splitOnChar (sep : Char) : List Char → List (List Char)
  | [] => [[]]
  | c :: rest =>
    let r := splitOnChar sep rest
    if c = sep then [] :: r
    else
      match r with
      | seg :: segs => (c :: seg) :: segs
      | [] => [[c]]

/-! ## Base64 (email.go `decodeBody`, Go `encoding/base64`)

Go's `base64.URLEncoding` / `base64.StdEncoding` padded decoders: skip
`\r`/`\n`, require the remaining length to be a multiple of 4, accept
`=` padding only at the end of the final quantum, and reject any
character outside the alphabet. Non-strict mode (the default used by
`DecodeString`) does not check the unused trailing bits. -/

/-- Index of a character in the base64 alphabet (`true` = URL-safe `-_`,
`false` = standard `+/`), `none` when outside the alphabet. -/
def b64CharIdx (urlSafe : Bool) (c : Char) : Option Nat :=
  if 'A' ≤ c ∧ c ≤ 'Z' then some (c.toNat - 65)
  else if 'a' ≤ c ∧ c ≤ 'z' then some (c.toNat - 97 + 26)
  else if '0' ≤ c ∧ c ≤ '9' then some (c.toNat - 48 + 52)
  else if urlSafe then
    if c = '-' then some 62 else if c = '_' then some 63 else none
  else
    if c = '+' then some 62 else if c = '/' then some 63 else none

/-- Character for a 6-bit group in the chosen base64 alphabet. -/
def b64IdxChar (urlSafe : Bool) (i : Nat) : Char :=
  if i < 26 then Char.ofNat (65 + i)
  else if i < 52 then Char.ofNat (97 + (i - 26))
  else if i < 62 then Char.ofNat (48 + (i - 52))
  else if i = 62 then (if urlSafe then '-' else '+')
  else (if urlSafe then '_' else '/')

/-- Decode base64 quanta of 4 characters; `=` padding is legal only in the
final quantum (one or two `=`). -/
def b64DecodeQuanta (urlSafe : Bool) : List Char → Option (List Nat)
  | [] => some []
  | c0 :: c1 :: c2 :: c3 :: rest =>
    match b64CharIdx urlSafe c0, b64CharIdx urlSafe c1 with
    | some i0, some i1 =>
      if c2 = '=' then
        if c3 = '=' ∧ rest = [] then some [i0 * 4 + i1 / 16] else none
      else
        match b64CharIdx urlSafe c2 with
        | some i2 =>
          if c3 = '=' then
            if rest = [] then some [i0 * 4 + i1 / 16, i1 % 16 * 16 + i2 / 4] else none
          else
            match b64CharIdx urlSafe c3 with
            | some i3 =>
              (b64DecodeQuanta urlSafe rest).map
                (fun bs => (i0 * 4 + i1 / 16) :: (i1 % 16 * 16 + i2 / 4) :: (i2 % 4 * 64 + i3) :: bs)
            | none => none
        | none => none
    | _, _ => none
  | _ => none

/-- Go `Encoding.DecodeString` (padded, non-strict): drop `\r`/`\n`, then
decode quanta; `none` is Go's `CorruptInputError`. -/
def b64Decode (urlSafe : Bool) (s : List Char) : Option (List Nat) :=
  let t := s.filter (fun c => !(c = '\n' || c = '\r'))
  if t.length % 4 = 0 then b64DecodeQuanta urlSafe t else none

/-- Go `Encoding.EncodeToString` (padded, no line breaks). -/
def b64Encode (urlSafe : Bool) : List Nat → List Char
  | [] => []
  | [a] => [b64IdxChar urlSafe (a / 4), b64IdxChar urlSafe (a % 4 * 16), '=', '=']
  | [a, b] => [b64IdxChar urlSafe (a / 4), b64IdxChar urlSafe (a % 4 * 16 + b / 16),
               b64IdxChar urlSafe (b % 16 * 4), '=']
  | a :: b :: c :: rest =>
      b64IdxChar urlSafe (a / 4) :: b64IdxChar urlSafe (a % 4 * 16 + b / 16) ::
      b64IdxChar urlSafe (b % 16 * 4 + c / 64) :: b64IdxChar urlSafe (c % 64) ::
      b64Encode urlSafe rest

/-- Go `string(decoded)`: the decoded bytes viewed as a string. Decoded
byte values are below 256, so each byte maps to one scalar. -/
def strOfBytes (bs : List Nat) : String := String.mk (bs.map Char.ofNat)

/-- email.go decodeBody lines 166-169: pad with `=` to a multiple of 4. -/
def b64Pad (s : String) : String :=
  if s.length % 4 ≠ 0 then s ++ String.mk (List.replicate ((4 - s.length % 4) % 4) '=') else s

/-- email.go `decodeBody` (lines 164-179): pad, try URL-safe, then
standard; on double failure return the literal marker string. -/
def decodeBody (body : String) : String :=
  let padded := b64Pad body
  match b64Decode true padded.data with
  | some bs => strOfBytes bs
  | none =>
    match b64Decode false padded.data with
    | some bs => strOfBytes bs
    | none => "Failed to decode body."

/-! ## HTML stripping (email.go `stripHTML`) -/

/-- Remove every match of the Go regexp `<[^>]*>`: a `<` through the next
`>`; a `<` with no later `>` matches nothing and is kept. -/
def removeTags : List Char → List Char
  | [] => []
  | '<' :: rest =>
    match rest.findIdx? (· = '>') with
    | some i => removeTags (rest.drop (i + 1))
    | none => '<' :: rest
  | c :: rest => c :: removeTags rest
termination_by l => l.length
decreasing_by
  · simp only [List.length_drop, List.length_cons]; omega
  · simp only [List.length_cons]; omega

/-- Go `strings.ReplaceAll`: replace each non-overlapping leftmost
occurrence of `old` (non-empty in every use below) by `new`. -/
def strReplaceAll (old new : List Char) : List Char → List Char
  | [] => []
  | c :: rest =>
    if h : old ≠ [] ∧ (c :: rest).take old.length = old then
      new ++ strReplaceAll old new ((c :: rest).drop old.length)
    else c :: strReplaceAll old new rest
termination_by l => l.length
decreasing_by
  · have h1 : 0 < old.length := List.length_pos.mpr h.1
    simp only [List.length_drop, List.length_cons]; omega
  · simp only [List.length_cons]; omega

/-- The entity table of stripHTML (email.go lines 188-198), in source
order. The Go code iterates a map, whose order is unspecified; the fixed
source order used here agrees with it on inputs where no replacement
output overlaps another entity, which covers every use in this file. -/
def htmlEntities : List (String × String) :=
  [("&nbsp;", " "), ("&lt;", "<"), ("&gt;", ">"), ("&amp;", "&"),
   ("&quot;", "\""), ("&apos;", "\x27"), ("&#39;", "\x27"),
   ("&ndash;", "-"), ("&mdash;", "—")]

/-- Go regexp `\s` (RE2 Perl class): `[\t\n\f\r ]`. -/
def isRe2Space (c : Char) : Bool :=
  c = '\t' || c = '\n' || c = '\x0c' || c = '\r' || c = ' '

/-- Replace every maximal run of `\s+` by a single space (Go
`regexp.MustCompile(...).ReplaceAllString(input, " ")` with a single
space — the replacement here is the regex substitution of `\s+`). -/
def collapseWs : List Char → List Char
  | [] => []
  | c :: rest =>
    if isRe2Space c then ' ' :: collapseWs (rest.dropWhile isRe2Space)
    else c :: collapseWs rest
termination_by l => l.length
decreasing_by
  · have := (List.dropWhile_sublist (l := rest) isRe2Space).length_le
    simp only [List.length_cons]; omega
  · simp only [List.length_cons]; omega

/-- Go `unicode.IsSpace` on the ASCII range (`\t \n \v \f \r ` and space);
U+0085/U+00A0 and higher Unicode space characters are not reproduced. -/
def goIsSpace (c : Char) : Bool :=
  c = '\t' || c = '\n' || c = '\x0b' || c = '\x0c' || c = '\r' || c = ' '

/-- Go `strings.TrimSpace`. -/
def trimSpaceChars (s : List Char) : List Char :=
  ((s.dropWhile goIsSpace).reverse.dropWhile goIsSpace).reverse

/-- email.go `stripHTML` (lines 181-207): drop tags, decode the entity
table, collapse whitespace, trim. -/
def stripHTML (input : String) : String :=
  let noTags := removeTags input.data
  let decoded := htmlEntities.foldl (fun acc e => strReplaceAll e.1.data e.2.data acc) noTags
  String.mk (trimSpaceChars (collapseWs decoded))

/-! ## The wire message part tree (gmail.MessagePart) -/

/-- `gmail.MessagePartBody`: inline data, declared size, attachment id. -/
structure MessagePartBody where
  attachmentId : String := ""
  data : String := ""
  size : Int := 0

/-- `gmail.MessagePart`: a node of the wire message tree. -/
inductive MessagePart where
  | mk (mimeType : String) (filename : String)
       (headers : List (String × String))
       (body : Option MessagePartBody)
       (parts : List MessagePart)

def MessagePart.mimeType : MessagePart → String | .mk t _ _ _ _ => t

def MessagePart.filename : MessagePart → String | .mk _ f _ _ _ => f

def MessagePart.headers : MessagePart → List (String × String) | .mk _ _ h _ _ => h

def MessagePart.body : MessagePart → Option MessagePartBody | .mk _ _ _ b _ => b

def MessagePart.parts : MessagePart → List MessagePart | .mk _ _ _ _ ps => ps

/-- `part.Body != nil && part.Body.Data != ""` and the data itself. -/
def bodyData : Option MessagePartBody → String
  | some b => b.data
  | none => ""

/-! ## Attachment discovery (email.go `findAttachments`, lines 85-98) -/

mutual

/-- email.go `findAttachments`: a `multipart/*` node contributes its
children's attachments; any other node with a non-empty filename is
itself an attachment. -/
def findAttachments : MessagePart → List MessagePart
  | .mk t f h b ps =>
    if strStartsWith t "multipart/" then findAttachmentsList ps
    else if f ≠ "" then [.mk t f h b ps]
    else []

/-- The `for _, p := range part.Parts` loop of `findAttachments`. -/
def findAttachmentsList : List MessagePart → List MessagePart
  | [] => []
  | p :: ps => findAttachments p ++ findAttachmentsList ps

end

/-! ## Body extraction (email.go `extractPlainText`, lines 128-162) -/

mutual

/-- email.go `extractPlainText`: a `text/plain` leaf with data decodes it;
a `multipart/*` node scans direct children typed `text/plain` first, then
direct children typed `text/html`; a `text/html` node with data decodes
and strips; anything else yields `""`. -/
def extractPlainText : MessagePart → String
  | .mk t _ _ b ps =>
    if t = "text/plain" ∧ bodyData b ≠ "" then decodeBody (bodyData b)
    else
      let viaMultipart : Option String :=
        if strStartsWith t "multipart/" ∧ ps.length > 0 then
          match scanPartsForType "text/plain" ps with
          | some text => some text
          | none => scanPartsForType "text/html" ps
        else none
      match viaMultipart with
      | some text => text
      | none =>
        if t = "text/html" ∧ bodyData b ≠ "" then stripHTML (decodeBody (bodyData b))
        else ""

/-- One `for _, p := range payload.Parts` scan of `extractPlainText`:
recurse into children whose type equals `ty`, returning the first
non-empty result. -/
def scanPartsForType (ty : String) : List MessagePart → Option String
  | [] => none
  | p :: ps =>
    if p.mimeType = ty then
      let text := extractPlainText p
      if text ≠ "" then some text else scanPartsForType ty ps
    else scanPartsForType ty ps

end

/-! ## Filename sanitization and the downloads path (main.go) -/

/-- main.go `sanitizeFilename` keep-predicate: `unicode.IsSpace(r) ||
unicode.IsLetter(r) || unicode.IsNumber(r) || r == '-' || r == '_' ||
r == '.'`, with the Unicode classes reproduced on ASCII (see header). -/
def sanitizeKeep (c : Char) : Bool :=
  goIsSpace c || c.isAlpha || c.isDigit || c = '-' || c = '_' || c = '.'

/-- main.go `sanitizeFilename` (lines 324-332): `strings.Map` over the
runes, everything outside the keep set becomes `_`. -/
def sanitizeFilename (name : String) : String :=
  String.mk (name.data.map (fun r => if sanitizeKeep r then r else '_'))

/-- Lexical segment cleaning of Go `filepath.Clean` restricted to
relative paths: drop empty and `.` segments, let `..` cancel the
previous segment (kept when there is nothing left to cancel). -/
def cleanSegs (segs : List (List Char)) : List (List Char) :=
  segs.foldl
    (fun acc seg =>
      if seg = [] ∨ seg = ['.'] then acc
      else if seg = ['.', '.'] then
        if acc ≠ [] ∧ acc.getLast? ≠ some ['.', '.'] then acc.dropLast else acc ++ [seg]
      else acc ++ [seg])
    []

def intercalateChar (sep : Char) : List (List Char) → List Char
  | [] => []
  | [x] => x
  | x :: xs => x ++ sep :: intercalateChar sep xs

/-- Go `filepath.Join(a, b)` for relative `a`: concatenate with `/` and
`Clean`; a fully cancelled path is `"."`. -/
def filepathJoin (a b : String) : String :=
  let cleaned := cleanSegs (splitOnChar '/' ((a ++ "/" ++ b).data))
  if cleaned = [] then "." else String.mk (intercalateChar '/' cleaned)

/-- main.go `downloadsDir`. -/
def downloadsDir : String := "downloads"

/-- The write path of `downloadAttachment` (main.go line 257). -/
def downloadWritePath (remoteName : String) : String :=
  filepathJoin downloadsDir (sanitizeFilename remoteName)

/-- A path that is the downloads directory or strictly inside it. -/
def withinDownloads (p : String) : Bool :=
  p = downloadsDir || strStartsWith p (downloadsDir ++ "/")

/-- Go `filepath.Base`: strip trailing slashes, take the last element;
`""` gives `"."`, all-slashes gives `"/"`. -/
def filepathBase (p : String) : String :=
  if p = "" then "."
  else
    let t := (p.data.reverse.dropWhile (· = '/')).reverse
    if t = [] then "/"
    else String.mk ((t.reverse.takeWhile (· ≠ '/')).reverse)

/-! ## Summary items (email.go `createEmailItem`, types.go `emailItem`) -/

/-- types.go `emailItem`. The snippet is kept as the Go byte string
(`List Nat` of UTF-8 bytes) because `createEmailItem` truncates it with
byte-level `len`/slicing. Defaults are the Go zero values. -/
structure EmailItem where
  id : String := ""
  threadId : String := ""
  subject : String := ""
  from_ : String := ""
  snippet : List Nat := []
  date : String := ""
  labels : List String := []
  isUnread : Bool := false
  body : String := ""
  recipient : String := ""
  cc : String := ""
  bcc : String := ""
  attachments : List MessagePart := []

/-- `gmail.Message` as fetched by `Users.Messages.Get`. -/
structure GmailMessage where
  id : String := ""
  threadId : String := ""
  snippet : String := ""
  labelIds : List String := []
  payload : Option MessagePart := none

/-- `gmail.Label`. -/
structure GmailLabel where
  id : String := ""
  name : String := ""

/-- One step of the header `switch` of `createEmailItem` (lines 45-60);
`fd` models the external date parser `formatDate` (email.go lines
209-228, `time.Parse` against the fixed format list — time parsing is an
external capability not reproduced here). -/
def applyHeader (fd : String → String) (item : EmailItem) (h : String × String) : EmailItem :=
  if h.1 = "Subject" then { item with subject := h.2 }
  else if h.1 = "From" then { item with from_ := h.2 }
  else if h.1 = "Date" then { item with date := fd h.2 }
  else if h.1 = "To" then { item with recipient := h.2 }
  else if h.1 = "Cc" then { item with cc := h.2 }
  else if h.1 = "Bcc" then { item with bcc := h.2 }
  else item

/-- One step of the label loop of `createEmailItem` (lines 70-75):
mark unread on the reserved `UNREAD` label and collect the label id. -/
def applyLabel (it : EmailItem) (l : String) : EmailItem :=
  { it with isUnread := it.isUnread || l = "UNREAD", labels := it.labels ++ [l] }

/-- Snippet truncation of `createEmailItem` (lines 77-80): Go `len` and
slicing act on bytes; `46` is `'.'`. -/
def truncateSnippet (bs : List Nat) : List Nat :=
  if bs.length > 80 then bs.take 77 ++ [46, 46, 46] else bs

/-- email.go `createEmailItem` (lines 14-83) after a successful fetch of
`msg` (the network fetch itself is external; a failed fetch yields no
item). `minimal` is the list-rendering format: body and attachments are
extracted only when it is false. -/
def createEmailItemFrom (fd : String → String) (msg : GmailMessage) (minimal : Bool) : EmailItem :=
  let item : EmailItem := { id := msg.id, threadId := msg.threadId, snippet := utf8Encode msg.snippet }
  let item :=
    match msg.payload with
    | some payload =>
      let item := payload.headers.foldl (applyHeader fd) item
      if !minimal then
        { item with body := extractPlainText payload, attachments := findAttachments payload }
      else item
    | none => item
  let item := msg.labelIds.foldl applyLabel item
  { item with snippet := truncateSnippet item.snippet }

/-- email.go `indentText` (lines 230-237): prefix every line with `"> "`. -/
def indentText (text : String) : String :=
  String.mk (intercalateChar '\n'
    ((splitOnChar '\n' text.data).map (fun line => ['>', ' '] ++ line)))

/-! ## Outgoing send (main.go `sendEmail`/`addAttachment`/`buildEmailHeaders`) -/

/-- The filesystem as seen by `os.Open`/`File.Stat`: each path's size,
`none` when the file cannot be opened. -/
def FileSystem : Type := String → Option Int

/-- main.go `maxAttachmentSize`: 25 MiB. -/
def maxAttachmentSize : Int := 25 * 1024 * 1024

/-- main.go `buildEmailHeaders` (lines 186-197). -/
def buildEmailHeaders (to_ cc bcc subject boundary : String) : String :=
  "To: " ++ to_ ++ "\r\n"
  ++ (if cc ≠ "" then "Cc: " ++ cc ++ "\r\n" else "")
  ++ (if bcc ≠ "" then "Bcc: " ++ bcc ++ "\r\n" else "")
  ++ "Subject: " ++ subject ++ "\r\n"
  ++ "MIME-Version: 1.0\r\nContent-Type: multipart/mixed; boundary=" ++ boundary ++ "\r\n\r\n"

/-- The failure cases of main.go `addAttachment` (lines 199-239) that
depend on the draft: open failure (error text wraps the `os` error, which
is external — only the fixed prefix is modelled) and the size check with
its exact message. `none` means the attachment part is written. -/
def addAttachmentErr (fs : FileSystem) (filePath : String) : Option String :=
  match fs filePath with
  | none => some ("failed to open attachment: " ++ filePath)
  | some size =>
    if size > maxAttachmentSize then
      some ("attachment too large: " ++ filepathBase filePath ++ " (max 25MB)")
    else none

/-- The `for _, filePath := range attachments` loop of `sendEmail`
(lines 151-155): the first failing attachment aborts. -/
def processAttachments (fs : FileSystem) : List String → Option String
  | [] => none
  | p :: ps =>
    match addAttachmentErr fs p with
    | some e => some e
    | none => processAttachments fs ps

/-- Result of the `sendEmail` unit of work: `failed e` is the
`emailLoadErrorMsg{err}` return paths before the `Send` call (no message,
partial or whole, reaches the network); `sent` is the single
`Users.Messages.Send` call carrying the draft. -/
inductive SendOutcome where
  | failed (err : String)
  | sent (to_ cc bcc subject body : String) (attachments : List String)

/-- main.go `sendEmail` (lines 126-184): assemble the multipart message
locally (headers, text part, each attachment via `addAttachment`), then
issue exactly one network send of the whole payload. -/
def sendEmailRun (fs : FileSystem) (to_ cc bcc subject body : String)
    (attachments : List String) : SendOutcome :=
  match processAttachments fs attachments with
  | some e => .failed e
  | none => .sent to_ cc bcc subject body attachments

/-- Number of `Users.Messages.Send` network calls a `sendEmail` run
issues: none on any failure path, one on success. -/
def networkSendCount : SendOutcome → Nat
  | .failed _ => 0
  | .sent _ _ _ _ _ _ => 1

/-- Length in bytes of the base64 encoding of `n` bytes (no line breaks):
`4 * ceil(n / 3)` — the encoded outgoing size of an attachment body. -/
def base64EncLen (n : Int) : Int := 4 * ((n + 2) / 3)

/-- Total encoded outgoing size of a draft's attachments. -/
def totalEncodedAttachmentSize (fs : FileSystem) (attachments : List String) : Int :=
  (attachments.map (fun p => base64EncLen ((fs p).getD 0))).sum

/-! ## Session controller (types.go, model.go, the Update file)

Keyboard input is modelled by the Bubble Tea string form of the key
(`"b"`, `"esc"`, `"enter"`, `"ctrl+s"`, ..., single-rune keys by their
rune). `key.Matches` against the bindings of types.go lines 60-78
becomes string comparison; `msg.Type == tea.KeyRunes` holds exactly for
keys outside the special-key set used by the program. -/

/-- types.go `state`. -/
inductive State where
  | stateInbox
  | stateViewing
  | stateLoading
  | stateComposing
  | stateReplying
  | stateSearching
  | stateManagingLabels
deriving DecidableEq, Repr

def matchesBack (k : String) : Bool := k = "b" || k = "esc"

def matchesReply (k : String) : Bool := k = "r"

def matchesCompose (k : String) : Bool := k = "c"

def matchesDelete (k : String) : Bool := k = "d"

def matchesSearch (k : String) : Bool := k = "/"

def matchesLabels (k : String) : Bool := k = "l"

def matchesToggleRead (k : String) : Bool := k = "m"

def matchesQuit (k : String) : Bool := k = "q" || k = "ctrl+c"

def matchesSend (k : String) : Bool := k = "ctrl+s"

def matchesNextInput (k : String) : Bool := k = "tab"

def matchesPrevInput (k : String) : Bool := k = "shift+tab"

def matchesHelp (k : String) : Bool := k = "?"

def matchesSelect (k : String) : Bool := k = "enter"

def matchesAddAttachment (k : String) : Bool := k = "ctrl+a"

def matchesRemoveAttachment (k : String) : Bool := k = "ctrl+x"

def matchesDownloadAttachment (k : String) : Bool := k = "ctrl+d"

/-- `msg.Type == tea.KeyEnter`. -/
def keyIsEnter (k : String) : Bool := k = "enter"

/-- The non-rune (special) keys occurring in this program's key space. -/
def specialKeys : List String :=
  ["esc", "enter", "tab", "shift+tab", "ctrl+a", "ctrl+c", "ctrl+d", "ctrl+s", "ctrl+x",
   "up", "down", "left", "right", "home", "end"]

/-- `msg.Type == tea.KeyRunes`. -/
def keyIsRunes (k : String) : Bool := !(specialKeys.contains k)

/-- Go `strconv.Atoi` (overflow aside, which no single keypress reaches). -/
def goAtoi (s : String) : Option Int :=
  let digitsVal : List Char → Option Int := fun cs =>
    if cs ≠ [] ∧ cs.all Char.isDigit then
      some (cs.foldl (fun a c => a * 10 + Int.ofNat (c.toNat - 48)) 0)
    else none
  match s.data with
  | '+' :: rest => digitsVal rest
  | '-' :: rest => (digitsVal rest).map Int.neg
  | cs => digitsVal cs

/-- The commands a controller step can issue: the asynchronous units of
work of main.go plus `tea.Quit` and the spinner tick. `notify m` is
`showNotification(m)` — the one-line transient notification. -/
inductive Cmd where
  | quit
  | tick
  | notify (message : String)
  | loadEmail (msgId : String)
  | loadLabels
  | loadEmailsByLabel (labelId : String)
  | performSearch (query : String)
  | sendEmail (to_ cc bcc subject body : String) (attachments : List String)
  | deleteEmail (msgId : String)
  | toggleReadStatus (msgId : String) (isUnread : Bool)
  | downloadAttachment (msgId : String) (attachment : MessagePart)

/-- The `tea.Msg` events the Update loop receives (types.go lines
160-169 plus key/window input). `searchResult` carries, for each id of
the service's list reply, the wire message that the per-item minimal
fetch inside `handleSearchResult` returns (`none` for a failed fetch,
whose item is skipped). -/
inductive Msg where
  | key (k : String)
  | windowSize (width height : Nat)
  | emailLoaded (content : String)
  | emailSent
  | emailLoadError (err : String)
  | labelsLoaded (labels : List GmailLabel)
  | searchResult (fetched : List (Option GmailMessage))
  | attachmentDownloaded (filename : String)
  | notification (message : String)

/-- types.go `model`: the session fields. Widget-internal state (styles,
cursors, viewport offsets, spinner frames) is external; of each text
widget only its current value is part of the session. `listIndex` /
`labelsIndex` model the external list widgets' selection cursor read by
`SelectedItem()`. -/
structure Model where
  state : State
  list : List EmailItem := []
  listIndex : Nat := 0
  fullEmail : String := ""
  width : Nat := 0
  height : Nat := 0
  err : String := ""
  showHelp : Bool := false
  composeFrom : String := ""
  composeTo : String := ""
  composeCc : String := ""
  composeBcc : String := ""
  composeSubj : String := ""
  composeBody : String := ""
  replyBody : String := ""
  searchInput : String := ""
  labels : List GmailLabel := []
  labelsList : List GmailLabel := []
  labelsIndex : Nat := 0
  currentMsg : Option EmailItem := none
  replyToMsg : Option EmailItem := none
  focused : Nat := 0
  searchQuery : String := ""
  composeAttachments : List String := []
  replyAttachments : List String := []
  attachmentInput : String := ""
  addingAttachment : Bool := false
  attachmentDownloading : Bool := false

/-- Go `m.currentMsg` dereference (`*emailItem`); the nil case is
unreachable in every handler that dereferences it. -/
def currentOf (m : Model) : EmailItem := m.currentMsg.getD {}

def replyToOf (m : Model) : EmailItem := m.replyToMsg.getD {}

/-- `m.list.SelectedItem().(emailItem)` with its `ok` flag. -/
def selectedItem (m : Model) : Option EmailItem := m.list.get? m.listIndex

/-- `m.labelsList.SelectedItem().(labelItem)`. -/
def selectedLabel (m : Model) : Option GmailLabel := m.labelsList.get? m.labelsIndex

/-- Update file `handleAttachmentDownload` (lines 85-103). -/
def handleAttachmentDownload (m : Model) (k : String) : Model × List Cmd :=
  if matchesBack k then ({ m with attachmentDownloading := false }, [])
  else if keyIsRunes k then
    match goAtoi k with
    | some digit =>
      if 0 < digit ∧ digit ≤ (currentOf m).attachments.length then
        match (currentOf m).attachments.get? (digit.toNat - 1) with
        | some attachment =>
          ({ m with attachmentDownloading := false },
           [.notify ("Downloading " ++ attachment.filename ++ "..."),
            .downloadAttachment (currentOf m).id attachment])
        | none => (m, [])
      else (m, [])
    | none => (m, [])
  else (m, [])

/-- Update file `updateInbox` (lines 168-208); unmatched keys are
delegated to the list widget (external), leaving the session unchanged. -/
def updateInbox (m : Model) (k : String) : Model × List Cmd :=
  if matchesCompose k then ({ m with state := .stateComposing, composeFrom := "me" }, [])
  else if matchesSearch k then ({ m with state := .stateSearching }, [])
  else if matchesLabels k then (m, [.loadLabels])
  else if matchesQuit k then (m, [.quit])
  else if matchesSelect k then
    match selectedItem m with
    | some selected =>
      ({ m with currentMsg := some selected, state := .stateLoading },
       [.tick, .loadEmail selected.id])
    | none => (m, [])
  else if matchesDelete k then
    match selectedItem m with
    | some selected => (m, [.deleteEmail selected.id])
    | none => (m, [])
  else if matchesToggleRead k then
    match selectedItem m with
    | some selected => (m, [.toggleReadStatus selected.id selected.isUnread])
    | none => (m, [])
  else (m, [])

/-- Update file `updateViewing` (lines 210-249). -/
def updateViewing (m : Model) (k : String) : Model × List Cmd :=
  if matchesBack k then ({ m with state := .stateInbox }, [])
  else if matchesReply k then
    ({ m with state := .stateReplying, replyToMsg := m.currentMsg }, [])
  else if matchesDelete k then (m, [.deleteEmail (currentOf m).id])
  else if matchesToggleRead k then
    (m, [.toggleReadStatus (currentOf m).id (currentOf m).isUnread])
  else if matchesLabels k then (m, [.loadLabels])
  else if matchesQuit k then (m, [.quit])
  else if matchesDownloadAttachment k then
    if (currentOf m).attachments.length = 0 then
      (m, [.notify "No attachments available"])
    else
      ({ m with attachmentDownloading := true },
       [.notify ("Select attachment to download (1-"
          ++ toString (currentOf m).attachments.length ++ ") [esc] cancel")])
  else (m, [])

/-- Update file `handleAttachmentAdd` (lines 305-322). -/
def handleAttachmentAdd (fs : FileSystem) (m : Model) : Model × List Cmd :=
  let path := String.mk (trimSpaceChars m.attachmentInput.data)
  if path = "" then (m, [])
  else if (fs path).isSome then
    ({ m with composeAttachments := m.composeAttachments ++ [path],
              addingAttachment := false, attachmentInput := "" },
     [.notify ("Added: " ++ filepathBase path)])
  else (m, [.notify ("File not found: " ++ path)])

/-- Update file `updateComposing` (lines 251-303). The focus cycle
`(m.focused - 1 + 6) % 6` is on Go `int`; with `0 ≤ focused < 6`
maintained by the handlers it equals `(focused + 5) % 6` on `Nat`. -/
def updateComposing (fs : FileSystem) (m : Model) (k : String) : Model × List Cmd :=
  if matchesBack k then
    if m.addingAttachment then
      ({ m with addingAttachment := false, attachmentInput := "" }, [])
    else ({ m with state := .stateInbox }, [])
  else if matchesSend k then
    (m, [.sendEmail m.composeTo m.composeCc m.composeBcc m.composeSubj m.composeBody
           m.composeAttachments])
  else if matchesAddAttachment k then
    if !m.addingAttachment then ({ m with addingAttachment := true }, []) else (m, [])
  else if matchesRemoveAttachment k then
    if !m.addingAttachment ∧ m.composeAttachments.length > 0 then
      ({ m with composeAttachments := m.composeAttachments.dropLast },
       [.notify "Removed last attachment"])
    else (m, [])
  else if keyIsEnter k ∧ m.addingAttachment then handleAttachmentAdd fs m
  else if matchesNextInput k then
    if !m.addingAttachment then ({ m with focused := (m.focused + 1) % 6 }, []) else (m, [])
  else if matchesPrevInput k then
    if !m.addingAttachment then ({ m with focused := (m.focused + 5) % 6 }, []) else (m, [])
  else (m, [])

/-- Update file `updateReplying` (lines 348-403). -/
def updateReplying (fs : FileSystem) (m : Model) (k : String) : Model × List Cmd :=
  if matchesBack k then
    ({ m with state := .stateViewing, addingAttachment := false }, [])
  else if matchesSend k then
    let quoted := "\n\n--- Original Message ---\nFrom: " ++ (replyToOf m).from_
      ++ "\nDate: " ++ (replyToOf m).date ++ "\n\n" ++ indentText (currentOf m).body
    let fullBody := m.replyBody ++ quoted
    (m, [.sendEmail (replyToOf m).from_ "" "" ("Re: " ++ (replyToOf m).subject) fullBody
           m.replyAttachments])
  else if matchesAddAttachment k then ({ m with addingAttachment := true }, [])
  else if matchesRemoveAttachment k then
    (if m.replyAttachments.length > 0 then
       { m with replyAttachments := m.replyAttachments.dropLast }
     else m, [])
  else if keyIsEnter k ∧ m.addingAttachment then
    let path := String.mk (trimSpaceChars m.attachmentInput.data)
    (if path ≠ "" ∧ (fs path).isSome then
       { m with replyAttachments := m.replyAttachments ++ [path],
                addingAttachment := false, attachmentInput := "" }
     else m, [])
  else (m, [])

/-- Update file `updateSearching` (lines 405-420). -/
def updateSearching (m : Model) (k : String) : Model × List Cmd :=
  if matchesBack k then ({ m with state := .stateInbox }, [])
  else if keyIsEnter k then
    ({ m with state := .stateLoading, searchQuery := m.searchInput },
     [.tick, .performSearch m.searchInput])
  else (m, [])

/-- Update file `updateLabelManagement` (lines 422-438). -/
def updateLabelManagement (m : Model) (k : String) : Model × List Cmd :=
  if matchesBack k then ({ m with state := .stateInbox }, [])
  else if matchesSelect k then
    match selectedLabel m with
    | some selected =>
      ({ m with state := .stateLoading }, [.tick, .loadEmailsByLabel selected.id])
    | none => (m, [])
  else (m, [])

/-- Update file `handleKeyPress` (lines 50-83). -/
def handleKeyPress (fs : FileSystem) (m : Model) (k : String) : Model × List Cmd :=
  if !m.showHelp ∧ matchesHelp k then ({ m with showHelp := true }, [])
  else if m.showHelp ∧ matchesHelp k then ({ m with showHelp := false }, [])
  else if m.state = .stateViewing ∧ m.attachmentDownloading then handleAttachmentDownload m k
  else
    match m.state with
    | .stateInbox => updateInbox m k
    | .stateViewing => updateViewing m k
    | .stateComposing => updateComposing fs m k
    | .stateReplying => updateReplying fs m k
    | .stateSearching => updateSearching m k
    | .stateManagingLabels => updateLabelManagement m k
    | .stateLoading => (m, [])

/-- Update file `handleWindowSize` (lines 36-48); the resizing itself is
widget-internal. -/
def handleWindowSize (m : Model) (w h : Nat) : Model × List Cmd :=
  ({ m with width := w, height := h }, [])

/-- Update file `handleEmailLoaded` (lines 105-112). -/
def handleEmailLoaded (m : Model) (content : String) : Model × List Cmd :=
  ({ m with state := .stateViewing, fullEmail := content }, [])

/-- Update file `handleEmailSent` (lines 114-118). -/
def handleEmailSent (m : Model) : Model × List Cmd :=
  ({ m with state := .stateInbox }, [.notify "Email sent successfully!"])

/-- Update file `handleLabelsLoaded` (lines 120-129). -/
def handleLabelsLoaded (m : Model) (labels : List GmailLabel) : Model × List Cmd :=
  ({ m with labels := labels, labelsList := labels, state := .stateManagingLabels }, [])

/-- Update file `handleSearchResult` (lines 131-141): convert each
successfully fetched message in minimal format, skip failures, install
the items and return to the inbox state. -/
def handleSearchResult (fd : String → String) (m : Model)
    (fetched : List (Option GmailMessage)) : Model × List Cmd :=
  let items := fetched.filterMap (fun o => o.map (fun g => createEmailItemFrom fd g true))
  ({ m with list := items, state := .stateInbox }, [])

/-- Update file `updateComponents` (lines 143-166): the event is routed
to the current state's widget; no session field changes. -/
def updateComponents (m : Model) : Model × List Cmd := (m, [])

/-- The Bubble Tea `Update` function (Update file lines 15-34). Events
with no `case` — notably `emailLoadErrorMsg` and `notificationMsg` —
fall through to `updateComponents`. `fd` is the external date parser,
`fs` the filesystem. -/
def Update (fd : String → String) (fs : FileSystem) (m : Model) (msg : Msg) :
    Model × List Cmd :=
  match msg with
  | .windowSize w h => handleWindowSize m w h
  | .key k => handleKeyPress fs m k
  | .emailLoaded content => handleEmailLoaded m content
  | .emailSent => handleEmailSent m
  | .labelsLoaded labels => handleLabelsLoaded m labels
  | .searchResult fetched => handleSearchResult fd m fetched
  | .attachmentDownloaded filename => (m, [.notify ("Downloaded: " ++ filename)])
  | .emailLoadError _ => updateComponents m
  | .notification _ => updateComponents m

/-! ## Specification-side definitions

These do not model source code; each follows the words of a spec/claim
sentence, to be compared against the source-modelled functions above. -/

mutual

/-- Modelled from the claim wording of C5: the decoded content of the
first `text/plain` descendant that yields a non-empty body, scanning the
whole part tree left to right. -/
def plainDescendantText : MessagePart → Option String
  | .mk t _ _ b ps =>
    if t = "text/plain" ∧ bodyData b ≠ "" ∧ decodeBody (bodyData b) ≠ "" then
      some (decodeBody (bodyData b))
    else plainDescendantTextList ps

def plainDescendantTextList : List MessagePart → Option String
  | [] => none
  | p :: ps =>
    match plainDescendantText p with
    | some text => some text
    | none => plainDescendantTextList ps

end

mutual

/-- Modelled from the claim wording of C6: every part with a non-empty
filename, regardless of its MIME type, anywhere in the tree, in
depth-first left-to-right order. -/
def partsWithFilename : MessagePart → List MessagePart
  | .mk t f h b ps =>
    (if f ≠ "" then [MessagePart.mk t f h b ps] else []) ++ partsWithFilenameList ps

def partsWithFilenameList : List MessagePart → List MessagePart
  | [] => []
  | p :: ps => partsWithFilename p ++ partsWithFilenameList ps

end

mutual

/-- Conventional MIME shape: only `multipart/*` parts carry children and
container parts carry no filename. On such trees `findAttachments`
agrees with the full-tree enumeration `partsWithFilename`. -/
def wellFormedTree : MessagePart → Bool
  | .mk t f _ _ ps =>
    (if strStartsWith t "multipart/" then f = "" else ps.isEmpty) && wellFormedTreeList ps

def wellFormedTreeList : List MessagePart → Bool
  | [] => true
  | p :: ps => wellFormedTree p && wellFormedTreeList ps

end

/-- Shared concrete instantiation of the external date parser. -/
def idDate : String → String := id

/-- Shared concrete filesystem with no files. -/
def emptyFs : FileSystem := fun _ => none

/-! ### Concrete instances used by the theorems -/

def exOrigItem : EmailItem :=
  { id := "m1", subject := "S", from_ := "a@b", date := "D", body := "hi\nthere" }

def exReplyModel : Model :=
  { state := .stateReplying, replyBody := "Thanks!",
    currentMsg := some exOrigItem, replyToMsg := some exOrigItem }

def exPlainLeaf : MessagePart := .mk "text/plain" "" [] (some { data := "aGVsbG8=" }) []

/-- `PGI-SGk8L2I-` is the URL-safe base64 of `<b>Hi</b>`. -/
def exHtmlLeaf : MessagePart := .mk "text/html" "" [] (some { data := "PGI-SGk8L2I-" }) []

def exNestedMulti : MessagePart :=
  .mk "multipart/mixed" "" [] none [.mk "multipart/alternative" "" [] none [exPlainLeaf]]

def exBothMulti : MessagePart := .mk "multipart/alternative" "" [] none [exHtmlLeaf, exPlainLeaf]

def exHtmlOnlyMulti : MessagePart := .mk "multipart/mixed" "" [] none [exHtmlLeaf]

def exNamedMultipart : MessagePart := .mk "multipart/mixed" "evil.txt" [] none []

def exAttachPart : MessagePart :=
  .mk "application/pdf" "doc.pdf" [] (some { attachmentId := "att1", size := 100 }) []

def exAttachPart2 : MessagePart :=
  .mk "image/png" "pic.png" [] (some { attachmentId := "att2", size := 5 }) []

def exAttachPart3 : MessagePart :=
  .mk "text/csv" "data.csv" [] (some { attachmentId := "att3", size := 7 }) []

def exAttachPayload : MessagePart :=
  .mk "multipart/mixed" "" [] none [exPlainLeaf, exAttachPart]

def exAttachMsg : GmailMessage :=
  { id := "w1", threadId := "t1", snippet := "snip", labelIds := ["UNREAD"],
    payload := some exAttachPayload }

def exViewing3 : Model :=
  { state := .stateViewing, attachmentDownloading := true,
    currentMsg := some { id := "m9", attachments := [exAttachPart, exAttachPart2, exAttachPart3] } }

def twoBigFs : FileSystem := fun p => if p = "a.bin" ∨ p = "b.bin" then some 15728640 else none

def twoOverFs : FileSystem :=
  fun p => if p = "big1.bin" then some 26214401
           else if p = "big2.bin" then some 27000000 else none

def smallFs : FileSystem := fun p => if p = "ok.bin" then some 100 else none

/-! ## Helper lemmas -/

theorem applyHeader_body (fd : String → String) (it : EmailItem) (h : String × String) :
    (applyHeader fd it h).body = it.body := by
  unfold applyHeader; split_ifs <;> rfl

theorem applyHeader_attachments (fd : String → String) (it : EmailItem) (h : String × String) :
    (applyHeader fd it h).attachments = it.attachments := by
  unfold applyHeader; split_ifs <;> rfl

theorem applyHeader_snippet (fd : String → String) (it : EmailItem) (h : String × String) :
    (applyHeader fd it h).snippet = it.snippet := by
  unfold applyHeader; split_ifs <;> rfl

theorem foldl_applyHeader_body (fd : String → String) (hs : List (String × String))
    (it : EmailItem) : (hs.foldl (applyHeader fd) it).body = it.body := by
  induction hs generalizing it with
  | nil => rfl
  | cons h t ih => rw [List.foldl_cons, ih, applyHeader_body]

theorem foldl_applyHeader_attachments (fd : String → String) (hs : List (String × String))
    (it : EmailItem) : (hs.foldl (applyHeader fd) it).attachments = it.attachments := by
  induction hs generalizing it with
  | nil => rfl
  | cons h t ih => rw [List.foldl_cons, ih, applyHeader_attachments]

theorem foldl_applyHeader_snippet (fd : String → String) (hs : List (String × String))
    (it : EmailItem) : (hs.foldl (applyHeader fd) it).snippet = it.snippet := by
  induction hs generalizing it with
  | nil => rfl
  | cons h t ih => rw [List.foldl_cons, ih, applyHeader_snippet]

theorem foldl_applyLabel_body (ls : List String) (it : EmailItem) :
    (ls.foldl applyLabel it).body = it.body := by
  induction ls generalizing it with
  | nil => rfl
  | cons l t ih => rw [List.foldl_cons, ih]; rfl

theorem foldl_applyLabel_attachments (ls : List String) (it : EmailItem) :
    (ls.foldl applyLabel it).attachments = it.attachments := by
  induction ls generalizing it with
  | nil => rfl
  | cons l t ih => rw [List.foldl_cons, ih]; rfl

theorem foldl_applyLabel_snippet (ls : List String) (it : EmailItem) :
    (ls.foldl applyLabel it).snippet = it.snippet := by
  induction ls generalizing it with
  | nil => rfl
  | cons l t ih => rw [List.foldl_cons, ih]; rfl

/-- A minimal-format item always has the Go zero values for body and
attachments. -/
theorem createEmailItemFrom_minimal (fd : String → String) (msg : GmailMessage) :
    (createEmailItemFrom fd msg true).body = ""
    ∧ (createEmailItemFrom fd msg true).attachments = [] := by
  unfold createEmailItemFrom
  cases msg.payload <;>
    simp [foldl_applyLabel_body, foldl_applyLabel_attachments,
          foldl_applyHeader_body, foldl_applyHeader_attachments]

/-- The stored snippet is the truncation of the fetched snippet bytes. -/
theorem createEmailItemFrom_snippet (fd : String → String) (msg : GmailMessage) (minimal : Bool) :
    (createEmailItemFrom fd msg minimal).snippet = truncateSnippet (utf8Encode msg.snippet) := by
  unfold createEmailItemFrom
  cases msg.payload with
  | none => simp [foldl_applyLabel_snippet]
  | some payload =>
    cases minimal <;>
      simp [foldl_applyLabel_snippet, foldl_applyHeader_snippet]

/-! ## C2 — transient service errors -/

/-- C2: the claim says a transient service error (`emailLoadErrorMsg`
from any fetch/list/send/trash/label operation) surfaces a one-line
transient notification so the user can retry. In the code the event
matches no `case` of `Update`: it falls through to `updateComponents`,
which only forwards it to the current widget. No notification command is
issued, no session field changes — and a failure of a loading-class
operation therefore leaves the session in `stateLoading` with no retry
path. This theorem evaluates the code at every such failing input. -/
theorem C2_transient_error_dropped (fd : String → String) (fs : FileSystem)
    (m : Model) (e : String) :
    Update fd fs m (.emailLoadError e) = (m, []) := rfl

/-! ## C3 — labels key from the Inbox -/

/-- C3 as stated is false: pressing the labels key in the Inbox issues
the asynchronous label-list fetch but leaves the session in
`stateInbox`, not `stateLoading`. -/
theorem C3_counterexample :
    (Update idDate emptyFs { state := .stateInbox } (.key "l")).1.state = State.stateInbox
    ∧ State.stateInbox ≠ State.stateLoading
    ∧ (Update idDate emptyFs { state := .stateInbox } (.key "l")).2 = [Cmd.loadLabels] :=
  ⟨rfl, by decide, rfl⟩

/-- C3 amended: from the Inbox the labels key issues the asynchronous
label-list fetch while the session stays in the Inbox state; when the
fetch completes the session transitions to ManagingLabels with the
fetched labels populated (and no further command). -/
theorem C3_labels_flow (fd : String → String) (fs : FileSystem) (m : Model)
    (ls : List GmailLabel) (hstate : m.state = State.stateInbox)
    (hhelp : m.showHelp = false) :
    Update fd fs m (.key "l") = (m, [Cmd.loadLabels])
    ∧ (Update fd fs m (.key "l")).1.state = State.stateInbox
    ∧ (Update fd fs m (.labelsLoaded ls)).1.state = State.stateManagingLabels
    ∧ (Update fd fs m (.labelsLoaded ls)).1.labels = ls
    ∧ (Update fd fs m (.labelsLoaded ls)).1.labelsList = ls
    ∧ (Update fd fs m (.labelsLoaded ls)).2 = [] := by
  have h1 : Update fd fs m (.key "l") = (m, [Cmd.loadLabels]) := by
    show handleKeyPress fs m "l" = (m, [Cmd.loadLabels])
    unfold handleKeyPress
    rw [hstate, hhelp]
    simp [matchesHelp, updateInbox, matchesCompose, matchesSearch, matchesLabels]
  refine ⟨h1, by rw [h1]; exact hstate, rfl, rfl, rfl, rfl⟩

/-- Witness for C3 amended at a concrete session. -/
theorem C3_labels_flow_witness :
    Update idDate emptyFs { state := .stateInbox } (.key "l")
      = ({ state := .stateInbox }, [Cmd.loadLabels])
    ∧ (Update idDate emptyFs { state := .stateInbox }
        (.labelsLoaded [{ id := "L1", name := "work" }])).1.state
      = State.stateManagingLabels := by
  have h := C3_labels_flow idDate emptyFs { state := .stateInbox }
    [{ id := "L1", name := "work" }] rfl rfl
  exact ⟨h.1, h.2.2.1⟩

/-! ## C9 — snippet truncation -/

/-- C9 as stated is false: lengths are measured in bytes, not
characters. A snippet of 27 three-byte characters (81 bytes) has rune
count 27 ≤ 80, yet the stored snippet is truncated (mid-rune). -/
theorem C9_counterexample :
    runeCount (String.mk (List.replicate 27 'あ')) ≤ 80
    ∧ (createEmailItemFrom idDate { snippet := String.mk (List.replicate 27 'あ') } true).snippet
        ≠ utf8Encode (String.mk (List.replicate 27 'あ')) := by
  constructor
  · decide
  · rw [createEmailItemFrom_snippet]
    decide

/-- C9 amended: the comparison and slicing are on UTF-8 bytes: a fetched
snippet longer than 80 bytes is stored as its first 77 bytes followed by
`...` (exactly 80 bytes); a snippet of at most 80 bytes passes through
unchanged. -/
theorem C9_snippet_truncation (fd : String → String) (msg : GmailMessage) (minimal : Bool) :
    ((utf8Encode msg.snippet).length > 80 →
      (createEmailItemFrom fd msg minimal).snippet
        = (utf8Encode msg.snippet).take 77 ++ [46, 46, 46]
      ∧ (createEmailItemFrom fd msg minimal).snippet.length = 80)
    ∧ ((utf8Encode msg.snippet).length ≤ 80 →
      (createEmailItemFrom fd msg minimal).snippet = utf8Encode msg.snippet) := by
  rw [createEmailItemFrom_snippet]
  unfold truncateSnippet
  constructor
  · intro hlong
    rw [if_pos hlong]
    refine ⟨rfl, ?_⟩
    simp only [List.length_append, List.length_take, List.length_cons, List.length_nil]
    omega
  · intro hshort
    rw [if_neg (by omega)]

/-- Witness for C9 amended: an 81-byte ASCII snippet is stored as 80
bytes; a short snippet passes through unchanged. -/
theorem C9_snippet_truncation_witness :
    (createEmailItemFrom idDate { snippet := String.mk (List.replicate 81 'a') } true).snippet.length = 80
    ∧ (createEmailItemFrom idDate { snippet := "hi" } true).snippet = utf8Encode "hi" :=
  ⟨((C9_snippet_truncation idDate { snippet := String.mk (List.replicate 81 'a') } true).1
      (by decide)).2,
   (C9_snippet_truncation idDate { snippet := "hi" } true).2 (by decide)⟩

/-! ## Lemmas on splitting and joining lines -/

theorem splitOnChar_ne_nil (sep : Char) (l : List Char) : splitOnChar sep l ≠ [] := by
  induction l with
  | nil => simp [splitOnChar]
  | cons c rest ih =>
    simp only [splitOnChar]
    split
    · simp
    · cases h : splitOnChar sep rest with
      | nil => simp
      | cons a b => simp

theorem splitOnChar_not_mem (sep : Char) (l : List Char) :
    ∀ seg ∈ splitOnChar sep l, sep ∉ seg := by
  induction l with
  | nil =>
    intro seg hseg
    simp only [splitOnChar, List.mem_singleton] at hseg
    subst hseg; simp
  | cons c rest ih =>
    intro seg hseg
    simp only [splitOnChar] at hseg
    by_cases hc : c = sep
    · rw [if_pos hc] at hseg
      rcases List.mem_cons.mp hseg with h | h
      · subst h; simp
      · exact ih seg h
    · rw [if_neg hc] at hseg
      cases hr : splitOnChar sep rest with
      | nil => exact absurd hr (splitOnChar_ne_nil sep rest)
      | cons a b =>
        rw [hr] at hseg
        rcases List.mem_cons.mp hseg with h | h
        · subst h
          intro hmem
          rcases List.mem_cons.mp hmem with h | h
          · exact hc h.symm
          · exact ih a (hr ▸ List.mem_cons_self a b) h
        · exact ih seg (hr ▸ List.mem_cons_of_mem a h)

theorem splitOnChar_single (sep : Char) (l : List Char) (h : sep ∉ l) :
    splitOnChar sep l = [l] := by
  induction l with
  | nil => rfl
  | cons c cs ih =>
    have hc : ¬c = sep := fun he => h (he ▸ List.mem_cons_self c cs)
    have hcs : sep ∉ cs := fun hm => h (List.mem_cons_of_mem c hm)
    simp only [splitOnChar, if_neg hc, ih hcs]

theorem splitOnChar_append_sep (sep : Char) (x t : List Char) (hx : sep ∉ x) :
    splitOnChar sep (x ++ sep :: t) = x :: splitOnChar sep t := by
  induction x with
  | nil => simp [splitOnChar]
  | cons c cs ih =>
    have hc : ¬c = sep := fun he => hx (he ▸ List.mem_cons_self c cs)
    have hcs : sep ∉ cs := fun hm => hx (List.mem_cons_of_mem c hm)
    have ih2 : splitOnChar sep (List.append cs (sep :: t)) = cs :: splitOnChar sep t := ih hcs
    simp only [List.cons_append, splitOnChar, if_neg hc, ih2]

theorem splitOnChar_intercalateChar (sep : Char) (xss : List (List Char))
    (hne : xss ≠ []) (h : ∀ xs ∈ xss, sep ∉ xs) :
    splitOnChar sep (intercalateChar sep xss) = xss := by
  induction xss with
  | nil => exact absurd rfl hne
  | cons x rest ih =>
    cases rest with
    | nil => exact splitOnChar_single sep x (h x (List.mem_singleton.mpr rfl))
    | cons y t =>
      have hx : sep ∉ x := h x (List.mem_cons_self _ _)
      show splitOnChar sep (x ++ sep :: intercalateChar sep (y :: t)) = x :: y :: t
      rw [splitOnChar_append_sep sep x _ hx,
          ih (by simp) (fun xs hxs => h xs (List.mem_cons_of_mem x hxs))]

/-- The lines of `indentText s` are exactly the lines of `s`, each with
the `"> "` prefix. -/
theorem indentText_lines (s : String) :
    splitOnChar '\n' (indentText s).data
      = (splitOnChar '\n' s.data).map (fun line => ['>', ' '] ++ line) := by
  unfold indentText
  refine splitOnChar_intercalateChar '\n' _ ?_ ?_
  · intro hemp
    exact splitOnChar_ne_nil '\n' s.data (List.map_eq_nil_iff.mp hemp)
  · intro xs hxs
    rcases List.mem_map.mp hxs with ⟨line, hline, rfl⟩
    intro hmem
    rcases List.mem_append.mp hmem with h | h
    · simp at h
    · exact splitOnChar_not_mem '\n' s.data line hline h

/-! ## C7 — reply composition -/

/-- C7 as stated is false: the transmitted reply body contains a
`--- Original Message ---` separator line between the user's reply text
and the From/Date/blank-line/quoted-body block that the claim
enumerates (under either the paragraph-break or the direct-append
reading of "followed by"). -/
theorem C7_counterexample :
    Update idDate emptyFs exReplyModel (.key "ctrl+s")
      = (exReplyModel,
         [Cmd.sendEmail "a@b" "" "" "Re: S"
            "Thanks!\n\n--- Original Message ---\nFrom: a@b\nDate: D\n\n> hi\n> there" []])
    ∧ "Thanks!\n\n--- Original Message ---\nFrom: a@b\nDate: D\n\n> hi\n> there"
        ≠ "Thanks!" ++ "\n\n" ++ "From: a@b" ++ "\n" ++ "Date: D" ++ "\n\n"
          ++ indentText "hi\nthere"
    ∧ "Thanks!\n\n--- Original Message ---\nFrom: a@b\nDate: D\n\n> hi\n> there"
        ≠ "Thanks!" ++ "From: a@b" ++ "\n" ++ "Date: D" ++ "\n\n" ++ indentText "hi\nthere" :=
  ⟨rfl, by decide, by decide⟩

/-- C7 amended: pressing send in the Replying state transmits, in one
send command, a body equal to the user's reply text followed by a blank
separation, a `--- Original Message ---` marker line, a `From:` line and
a `Date:` line taken from the reply target, a blank line, and the
currently open message's body with every line prefixed `"> "`; the
subject is forced to `"Re: "` plus the original subject and the sole
recipient is the original sender (empty Cc and Bcc, which
`buildEmailHeaders` then omits entirely). -/
theorem C7_reply_send (fd : String → String) (fs : FileSystem) (m : Model) (r c : EmailItem)
    (hstate : m.state = State.stateReplying)
    (hr : m.replyToMsg = some r) (hc : m.currentMsg = some c) :
    Update fd fs m (.key "ctrl+s")
      = (m, [Cmd.sendEmail r.from_ "" "" ("Re: " ++ r.subject)
          (m.replyBody ++ ("\n\n--- Original Message ---\nFrom: " ++ r.from_
            ++ "\nDate: " ++ r.date ++ "\n\n" ++ indentText c.body))
          m.replyAttachments])
    ∧ splitOnChar '\n' (indentText c.body).data
        = (splitOnChar '\n' c.body.data).map (fun line => ['>', ' '] ++ line)
    ∧ (∀ boundary, buildEmailHeaders r.from_ "" "" ("Re: " ++ r.subject) boundary
        = "To: " ++ r.from_ ++ "\r\n" ++ "Subject: " ++ ("Re: " ++ r.subject)
          ++ "\r\n"
          ++ "MIME-Version: 1.0\r\nContent-Type: multipart/mixed; boundary=" ++ boundary
          ++ "\r\n\r\n") := by
  refine ⟨?_, indentText_lines c.body, ?_⟩
  · show handleKeyPress fs m "ctrl+s" = _
    unfold handleKeyPress
    rw [hstate]
    simp only [matchesHelp, Bool.and_eq_true, decide_eq_true_eq, String.reduceEq,
      and_false, false_and, if_false]
    unfold updateReplying
    simp [matchesBack, matchesSend, replyToOf, currentOf, hr, hc]
  · intro boundary
    simp [buildEmailHeaders]

/-- Witness for C7 amended at the concrete reply session. -/
theorem C7_reply_send_witness :
    Update idDate emptyFs exReplyModel (.key "ctrl+s")
      = (exReplyModel, [Cmd.sendEmail "a@b" "" "" "Re: S"
          ("Thanks!" ++ ("\n\n--- Original Message ---\nFrom: " ++ "a@b"
            ++ "\nDate: " ++ "D" ++ "\n\n" ++ indentText "hi\nthere")) []]) :=
  (C7_reply_send idDate emptyFs exReplyModel exOrigItem exOrigItem rfl rfl rfl).1

/-! ## C4 — filename sanitization and the downloads path -/

theorem listStartsWith_refl_append (x r : List Char) : listStartsWith x (x ++ r) = true := by
  induction x with
  | nil => rfl
  | cons c cs ih => simp [listStartsWith, ih]

/-- `filepath.Join("downloads", s)` for a separator-free component `s`:
empty and `.` collapse to the directory itself, `..` escapes to `.`,
anything else lands inside the directory. -/
theorem filepathJoin_downloads (s : String) (hnoslash : '/' ∉ s.data) :
    filepathJoin "downloads" s =
      (if s.data = [] ∨ s.data = ['.'] then "downloads"
       else if s.data = ['.', '.'] then "."
       else String.mk ("downloads".data ++ '/' :: s.data)) := by
  have hd : ("downloads" ++ "/" ++ s).data = "downloads".data ++ '/' :: s.data := rfl
  have hsplit : splitOnChar '/' (("downloads" ++ "/" ++ s).data)
      = ["downloads".data, s.data] := by
    rw [hd, splitOnChar_append_sep '/' _ _ (by decide), splitOnChar_single '/' _ hnoslash]
  unfold filepathJoin
  rw [hsplit]
  unfold cleanSegs
  simp only [List.foldl_cons, List.foldl_nil]
  rw [if_neg (by decide : ¬("downloads".data = [] ∨ "downloads".data = ['.'])),
      if_neg (by decide : ¬("downloads".data = ['.', '.']))]
  simp only [List.nil_append]
  by_cases h0 : s.data = [] ∨ s.data = ['.']
  · rw [if_pos h0, if_pos h0, if_neg (by simp)]
    decide
  · rw [if_neg h0, if_neg h0]
    by_cases h1 : s.data = ['.', '.']
    · rw [if_pos h1, if_pos h1]
      simp
    · rw [if_neg h1, if_neg h1, if_neg (by simp)]
      simp [intercalateChar]

/-- C4 as stated is false: `.` survives sanitization, so the remote
filename `..` sanitizes to itself and the joined write path
`filepath.Join("downloads", "..")` cleans to `.`, the parent of the
downloads directory — outside it. -/
theorem C4_counterexample :
    sanitizeFilename ".." = ".."
    ∧ downloadWritePath ".." = "."
    ∧ withinDownloads (downloadWritePath "..") = false :=
  ⟨by decide, by decide, by decide⟩

/-- C4 amended: sanitizeFilename maps, position by position, every
character that is not a letter, digit, space, `-`, `_` or `.` to `_`
and keeps the rest, so every surviving character is in the keep set;
and for every remote filename other than the literal `..` the sanitized
name joined under the downloads directory stays within the downloads
directory (`..` itself escapes to the parent directory). -/
theorem C4_sanitize_and_path (name : String) :
    (∀ i, (sanitizeFilename name).data.get? i
        = (name.data.get? i).map (fun r => if sanitizeKeep r then r else '_'))
    ∧ (∀ r ∈ (sanitizeFilename name).data, sanitizeKeep r = true)
    ∧ (sanitizeFilename name ≠ ".." → withinDownloads (downloadWritePath name) = true) := by
  have hdata : (sanitizeFilename name).data
      = name.data.map (fun r => if sanitizeKeep r then r else '_') := rfl
  have hkeep : ∀ r ∈ (sanitizeFilename name).data, sanitizeKeep r = true := by
    intro r hr
    rw [hdata] at hr
    rcases List.mem_map.mp hr with ⟨x, _, rfl⟩
    by_cases hx : sanitizeKeep x = true
    · rw [if_pos hx]; exact hx
    · rw [if_neg hx]; decide
  refine ⟨fun i => by rw [hdata]; exact List.get?_map _ _ _, hkeep, ?_⟩
  intro hne
  have hnoslash : '/' ∉ (sanitizeFilename name).data := by
    intro hmem
    exact absurd (hkeep '/' hmem) (by decide)
  show withinDownloads (filepathJoin "downloads" (sanitizeFilename name)) = true
  rw [filepathJoin_downloads _ hnoslash]
  split_ifs with h0 h1
  · decide
  · exact absurd (show sanitizeFilename name = ".." from by
      have he : sanitizeFilename name = String.mk (sanitizeFilename name).data := rfl
      rw [he, h1]) hne
  · have hrw : "downloads".data ++ '/' :: (sanitizeFilename name).data
        = ("downloads".data ++ ['/']) ++ (sanitizeFilename name).data := by
      rw [List.append_assoc]; rfl
    simp only [withinDownloads, strStartsWith, Bool.or_eq_true]
    right
    show listStartsWith ("downloads" ++ "/").data
      (String.mk ("downloads".data ++ '/' :: (sanitizeFilename name).data)).data = true
    rw [show (String.mk ("downloads".data ++ '/' :: (sanitizeFilename name).data)).data
        = "downloads".data ++ '/' :: (sanitizeFilename name).data from rfl, hrw]
    exact listStartsWith_refl_append _ _

/-- Witness for C4 amended: a filename with path and shell
metacharacters is rewritten and its write path stays inside downloads. -/
theorem C4_sanitize_and_path_witness :
    sanitizeFilename "my:file?.pdf" = "my_file_.pdf"
    ∧ withinDownloads (downloadWritePath "my:file?.pdf") = true :=
  ⟨by decide, (C4_sanitize_and_path "my:file?.pdf").2.2 (by decide)⟩

/-! ## C5 — body extraction from the part tree -/

/-- The child scan of `extractPlainText` returns the first non-empty
extraction among the direct children of the given MIME type. -/
theorem scanPartsForType_eq_find (ty : String) (ps : List MessagePart) :
    scanPartsForType ty ps
      = ((ps.filter (fun p => p.mimeType = ty)).map extractPlainText).find?
          (fun text => text ≠ "") := by
  induction ps with
  | nil => rfl
  | cons p rest ih =>
    by_cases hty : p.mimeType = ty
    · by_cases he : extractPlainText p = ""
      · simp [scanPartsForType, List.filter_cons, hty, he, ih]
      · simp [scanPartsForType, List.filter_cons, hty, he, ih]
    · simp [scanPartsForType, List.filter_cons, hty, ih]

/-- C5 as stated is false: for a `multipart/mixed` message whose only
child is a `multipart/alternative` wrapping a `text/plain` part, the
first text/plain descendant yields `"hello"`, but `extractPlainText`
returns `""` — the scan recurses only into direct children already
typed `text/plain` or `text/html`, never into nested `multipart/*`
children. -/
theorem C5_counterexample :
    plainDescendantText exNestedMulti = some "hello"
    ∧ extractPlainText exNestedMulti = "" := by
  have hdec : decodeBody "aGVsbG8=" = "hello" := by decide
  constructor
  · simp [exNestedMulti, exPlainLeaf, plainDescendantText, plainDescendantTextList,
          bodyData, hdec]
  · simp [exNestedMulti, exPlainLeaf, extractPlainText, scanPartsForType,
          strStartsWith, listStartsWith, bodyData, hdec, MessagePart.mimeType]

/-- C5 amended: body extraction of a `multipart/*` part with children
scans only its direct children: it returns the first non-empty
extraction among children typed `text/plain`, else the first non-empty
extraction among children typed `text/html`, else the empty string
(children that are themselves `multipart/*` are not descended into); a
`text/html` part with data decodes its payload and strips it through
the tag/entity/whitespace pipeline, and a `text/plain` part with data
decodes its payload directly. -/
theorem C5_body_extraction :
    (∀ t f hd b ps, strStartsWith t "multipart/" = true → ps ≠ [] →
      extractPlainText (.mk t f hd b ps)
        = (match ((ps.filter (fun p => p.mimeType = "text/plain")).map
              extractPlainText).find? (fun text => text ≠ "") with
           | some text => text
           | none =>
             match ((ps.filter (fun p => p.mimeType = "text/html")).map
                extractPlainText).find? (fun text => text ≠ "") with
             | some text => text
             | none => ""))
    ∧ (∀ f hd bd ps, bd.data ≠ "" →
        extractPlainText (.mk "text/html" f hd (some bd) ps)
          = stripHTML (decodeBody bd.data))
    ∧ (∀ f hd bd ps, bd.data ≠ "" →
        extractPlainText (.mk "text/plain" f hd (some bd) ps)
          = decodeBody bd.data) := by
  refine ⟨?_, ?_, ?_⟩
  · intro t f hd b ps hmulti hne
    have ht1 : ¬(t = "text/plain") := by
      intro he; subst he; exact absurd hmulti (by decide)
    have ht2 : ¬(t = "text/html") := by
      intro he; subst he; exact absurd hmulti (by decide)
    have hlen : 0 < ps.length := List.length_pos.mpr hne
    simp only [extractPlainText, bodyData, ht1, false_and, if_false,
      hmulti, hlen, and_self, true_and, if_true, ht2,
      scanPartsForType_eq_find]
    cases h1 : ((ps.filter (fun p => p.mimeType = "text/plain")).map
        extractPlainText).find? (fun text => text ≠ "") with
    | some text => simp [h1]
    | none =>
      cases h2 : ((ps.filter (fun p => p.mimeType = "text/html")).map
          extractPlainText).find? (fun text => text ≠ "") with
      | some text => simp [h1, h2]
      | none => simp [h1, h2]
  · intro f hd bd ps hdata
    simp [extractPlainText, bodyData, hdata,
      show strStartsWith "text/html" "multipart/" = false by decide]
  · intro f hd bd ps hdata
    simp [extractPlainText, bodyData, hdata]

/-- Witness for C5 amended: a multipart with an html child before a
plain child still yields the plain text; an html-only multipart yields
the tag-stripped text; leaves decode directly. -/
theorem C5_body_extraction_witness :
    extractPlainText exBothMulti = "hello"
    ∧ extractPlainText exHtmlOnlyMulti = "Hi"
    ∧ extractPlainText exHtmlLeaf = "Hi"
    ∧ extractPlainText exPlainLeaf = "hello" := by
  have hdec : decodeBody "aGVsbG8=" = "hello" := by decide
  have hdec2 : decodeBody "PGI-SGk8L2I-" = "<b>Hi</b>" := by decide
  have hstrip : stripHTML "<b>Hi</b>" = "Hi" := by
    simp [stripHTML, removeTags, strReplaceAll, htmlEntities, collapseWs,
          isRe2Space, trimSpaceChars, goIsSpace]
  have hplain : extractPlainText exPlainLeaf = "hello" := by
    have h := (C5_body_extraction).2.2 "" [] { data := "aGVsbG8=" } [] (by decide)
    rw [exPlainLeaf, h, hdec]
  have hhtml : extractPlainText exHtmlLeaf = "Hi" := by
    have h := (C5_body_extraction).2.1 "" [] { data := "PGI-SGk8L2I-" } [] (by decide)
    rw [exHtmlLeaf, h, hdec2, hstrip]
  have hplain2 : extractPlainText
      (.mk "text/plain" "" [] (some { data := "aGVsbG8=" }) []) = "hello" := hplain
  have hhtml2 : extractPlainText
      (.mk "text/html" "" [] (some { data := "PGI-SGk8L2I-" }) []) = "Hi" := hhtml
  refine ⟨?_, ?_, hhtml, hplain⟩
  · have h := (C5_body_extraction).1 "multipart/alternative" "" [] none
      [exHtmlLeaf, exPlainLeaf] (by decide) (by simp)
    rw [exBothMulti, h]
    simp [exHtmlLeaf, exPlainLeaf, MessagePart.mimeType, List.filter_cons,
      List.find?, hplain2, hhtml2]
  · have h := (C5_body_extraction).1 "multipart/mixed" "" [] none
      [exHtmlLeaf] (by decide) (by simp)
    rw [exHtmlOnlyMulti, h]
    simp [exHtmlLeaf, MessagePart.mimeType, List.filter_cons, List.find?, hhtml2]

/-! ## C6 — attachment discovery and the selection key -/

mutual

/-- On conventionally shaped trees, the source discovery agrees with the
full-tree enumeration of filename-bearing parts. -/
theorem findAttachments_eq_spec :
    ∀ p, wellFormedTree p = true → findAttachments p = partsWithFilename p
  | .mk t f hd b ps, h => by
    have h12 := h
    rw [wellFormedTree, Bool.and_eq_true] at h12
    rcases h12 with ⟨h1, h2⟩
    by_cases hm : strStartsWith t "multipart/" = true
    · rw [if_pos hm] at h1
      have hf : f = "" := of_decide_eq_true h1
      rw [findAttachments, partsWithFilename, if_pos hm, hf,
          if_neg (by simp), List.nil_append]
      exact findAttachmentsList_eq_spec ps h2
    · rw [if_neg hm] at h1
      have hps : ps = [] := List.isEmpty_iff.mp h1
      subst hps
      rw [findAttachments, partsWithFilename, if_neg hm]
      by_cases hf : f = "" <;> simp [hf, partsWithFilenameList]

/-- List version of `findAttachments_eq_spec`. -/
theorem findAttachmentsList_eq_spec :
    ∀ ps, wellFormedTreeList ps = true →
      findAttachmentsList ps = partsWithFilenameList ps
  | [], _ => rfl
  | p :: ps, h => by
    have h12 := h
    rw [wellFormedTreeList, Bool.and_eq_true] at h12
    rcases h12 with ⟨h1, h2⟩
    rw [findAttachmentsList, partsWithFilenameList,
        findAttachments_eq_spec p h1, findAttachmentsList_eq_spec ps h2]

end

/-- C6 as stated is false: a `multipart/*` part that itself carries a
non-empty filename is never collected (its MIME type does matter), so
discovery does not return every filename-bearing part of the tree. -/
theorem C6_counterexample :
    partsWithFilename exNamedMultipart = [exNamedMultipart]
    ∧ exNamedMultipart.filename ≠ ""
    ∧ findAttachments exNamedMultipart = [] := by
  refine ⟨?_, by decide, ?_⟩
  · simp [exNamedMultipart, partsWithFilename, partsWithFilenameList]
  · simp [exNamedMultipart, findAttachments, findAttachmentsList, strStartsWith, listStartsWith]

/-- C6 amended: discovery recurses only through `multipart/*`-typed
parts and collects every non-multipart part with a non-empty filename,
depth-first left-to-right — on conventionally shaped trees (multipart
containers carry no filename, leaves carry no children) that is exactly
every filename-bearing part of the tree; and while the picker is armed
in Viewing, the digit d with 1 ≤ d ≤ n disarms the picker and issues
the transfer of the d-th discovered attachment (1-based), leaving the
attachment list (and the rest of the session) unchanged. -/
theorem C6_attachment_discovery :
    (∀ p, wellFormedTree p = true → findAttachments p = partsWithFilename p)
    ∧ (∀ (fd : String → String) (fs : FileSystem) (m : Model) (k : String) (d : Int)
        (att : MessagePart),
        m.state = State.stateViewing → m.attachmentDownloading = true →
        matchesHelp k = false → matchesBack k = false → keyIsRunes k = true →
        goAtoi k = some d → 0 < d → d ≤ ((currentOf m).attachments.length : Int) →
        (currentOf m).attachments.get? (d.toNat - 1) = some att →
        Update fd fs m (.key k)
          = ({ m with attachmentDownloading := false },
             [Cmd.notify ("Downloading " ++ att.filename ++ "..."),
              Cmd.downloadAttachment (currentOf m).id att])) := by
  refine ⟨findAttachments_eq_spec, ?_⟩
  intro fd fs m k d att hstate hdl hhelp hback hrunes hatoi hpos hle hget
  show handleKeyPress fs m k = _
  unfold handleKeyPress
  rw [hstate, hdl, hhelp]
  simp only [and_false, false_and, Bool.false_eq_true, if_false, and_self, if_true,
    decide_True, Bool.and_self, and_true]
  unfold handleAttachmentDownload
  rw [hback, hatoi]
  simp only [Bool.false_eq_true, if_false, hrunes, if_true]
  rw [if_pos ⟨hpos, hle⟩, hget, hstate]

/-- Witness for C6 amended: on a two-leaf multipart the discovery equals
the enumeration, and in a session viewing three attachments the digit 2
downloads the second one. -/
theorem C6_attachment_discovery_witness :
    findAttachments exAttachPayload = partsWithFilename exAttachPayload
    ∧ Update idDate emptyFs exViewing3 (.key "2")
        = ({ exViewing3 with attachmentDownloading := false },
           [Cmd.notify "Downloading pic.png...",
            Cmd.downloadAttachment "m9" exAttachPart2]) := by
  constructor
  · refine (C6_attachment_discovery).1 exAttachPayload ?_
    simp [exAttachPayload, exPlainLeaf, exAttachPart, wellFormedTree, wellFormedTreeList,
      strStartsWith, listStartsWith]
  · exact (C6_attachment_discovery).2 idDate emptyFs exViewing3 "2" 2 exAttachPart2
      rfl rfl (by decide) (by decide) (by decide) (by decide) (by decide) (by decide) rfl

/-! ## C10 — minimal items from search/label fetches -/

/-- C10: every list item installed by a search-result or label-filtered
completion is built in minimal format, hence has empty body and empty
attachment list; selecting one moves to Loading with it as the current
message, the loaded content moves to Viewing, and the
download-attachment key then reports "No attachments available" — even
when the underlying message has attachments. -/
theorem C10_minimal_search_items (fd : String → String) (fs : FileSystem) (m : Model)
    (fetched : List (Option GmailMessage)) (content : String) (sel : EmailItem)
    (hhelp : m.showHelp = false) (hdl : m.attachmentDownloading = false)
    (hsel : (Update fd fs m (.searchResult fetched)).1.list.get?
        (Update fd fs m (.searchResult fetched)).1.listIndex = some sel) :
    (∀ item ∈ (Update fd fs m (.searchResult fetched)).1.list,
        item.body = "" ∧ item.attachments = [])
    ∧ (Update fd fs m (.searchResult fetched)).1.state = State.stateInbox
    ∧ (Update fd fs (Update fd fs m (.searchResult fetched)).1 (.key "enter")).1.state
        = State.stateLoading
    ∧ (Update fd fs (Update fd fs m (.searchResult fetched)).1 (.key "enter")).1.currentMsg
        = some sel
    ∧ sel.attachments = []
    ∧ Update fd fs
        (Update fd fs
          (Update fd fs (Update fd fs m (.searchResult fetched)).1 (.key "enter")).1
          (.emailLoaded content)).1
        (.key "ctrl+d")
      = ((Update fd fs
          (Update fd fs (Update fd fs m (.searchResult fetched)).1 (.key "enter")).1
          (.emailLoaded content)).1,
         [Cmd.notify "No attachments available"]) := by
  have hmin : ∀ item ∈ (Update fd fs m (.searchResult fetched)).1.list,
      item.body = "" ∧ item.attachments = [] := by
    intro item hmem
    have hlist : (Update fd fs m (.searchResult fetched)).1.list
        = fetched.filterMap (fun o => o.map (fun g => createEmailItemFrom fd g true)) := rfl
    rw [hlist] at hmem
    rcases List.mem_filterMap.mp hmem with ⟨o, _, hoe⟩
    cases o with
    | none => simp at hoe
    | some g =>
      exact (Option.some.inj hoe) ▸ createEmailItemFrom_minimal fd g
  have hselmem : sel ∈ (Update fd fs m (.searchResult fetched)).1.list :=
    List.get?_mem hsel
  have hselmin := hmin sel hselmem
  have hh1 : (Update fd fs m (.searchResult fetched)).1.showHelp = false := hhelp
  have h2 : Update fd fs (Update fd fs m (.searchResult fetched)).1 (.key "enter")
      = ({ (Update fd fs m (.searchResult fetched)).1 with
            currentMsg := some sel, state := State.stateLoading },
         [Cmd.tick, Cmd.loadEmail sel.id]) := by
    show handleKeyPress fs (Update fd fs m (.searchResult fetched)).1 "enter" = _
    unfold handleKeyPress
    rw [hh1]
    rw [if_neg (by decide), if_neg (by decide),
        if_neg (fun hx => absurd
          (show State.stateInbox = State.stateViewing from hx.1) (by decide))]
    show updateInbox (Update fd fs m (.searchResult fetched)).1 "enter" = _
    unfold updateInbox
    rw [if_neg (by decide), if_neg (by decide), if_neg (by decide), if_neg (by decide),
        if_pos (by decide)]
    rw [show selectedItem (Update fd fs m (.searchResult fetched)).1 = some sel from hsel]
  have hdl3 : (Update fd fs
      (Update fd fs (Update fd fs m (.searchResult fetched)).1 (.key "enter")).1
      (.emailLoaded content)).1.attachmentDownloading = false := by
    rw [h2]; exact hdl
  have hh3 : (Update fd fs
      (Update fd fs (Update fd fs m (.searchResult fetched)).1 (.key "enter")).1
      (.emailLoaded content)).1.showHelp = false := by
    rw [h2]; exact hhelp
  have hcur3 : (Update fd fs
      (Update fd fs (Update fd fs m (.searchResult fetched)).1 (.key "enter")).1
      (.emailLoaded content)).1.currentMsg = some sel := by
    rw [h2]; rfl
  have hcursel : currentOf (Update fd fs
      (Update fd fs (Update fd fs m (.searchResult fetched)).1 (.key "enter")).1
      (.emailLoaded content)).1 = sel := by
    unfold currentOf
    rw [hcur3]
    rfl
  refine ⟨hmin, rfl, by rw [h2], by rw [h2], hselmin.2, ?_⟩
  show handleKeyPress fs _ "ctrl+d" = _
  unfold handleKeyPress
  rw [hh3, hdl3]
  rw [if_neg (by decide), if_neg (by decide),
      if_neg (fun hx => absurd hx.2 (by decide))]
  show updateViewing _ "ctrl+d" = _
  unfold updateViewing
  rw [if_neg (by decide), if_neg (by decide), if_neg (by decide), if_neg (by decide),
      if_neg (by decide), if_neg (by decide), if_pos (by decide)]
  rw [hcursel, hselmin.2]
  rw [if_pos (by decide)]

/-- Witness for C10: the underlying message has an attachment (its
full-format item lists `doc.pdf`), yet after a search completion,
selection, and load, the download key reports no attachments. -/
theorem C10_minimal_search_items_witness :
    (createEmailItemFrom idDate exAttachMsg false).attachments = [exAttachPart]
    ∧ (createEmailItemFrom idDate exAttachMsg true).attachments = []
    ∧ Update idDate emptyFs
        (Update idDate emptyFs
          (Update idDate emptyFs
            (Update idDate emptyFs { state := State.stateInbox }
              (.searchResult [some exAttachMsg])).1
            (.key "enter")).1
          (.emailLoaded "content")).1
        (.key "ctrl+d")
      = ((Update idDate emptyFs
          (Update idDate emptyFs
            (Update idDate emptyFs { state := State.stateInbox }
              (.searchResult [some exAttachMsg])).1
            (.key "enter")).1
          (.emailLoaded "content")).1,
         [Cmd.notify "No attachments available"]) := by
  have h := C10_minimal_search_items idDate emptyFs { state := State.stateInbox }
    [some exAttachMsg] "content" (createEmailItemFrom idDate exAttachMsg true) rfl rfl rfl
  refine ⟨?_, (createEmailItemFrom_minimal idDate exAttachMsg).2, h.2.2.2.2.2⟩
  have hfull : (createEmailItemFrom idDate exAttachMsg false).attachments
      = findAttachments exAttachPayload := by
    unfold createEmailItemFrom
    simp [exAttachMsg, foldl_applyLabel_attachments, applyLabel]
  rw [hfull]
  simp [exAttachPayload, exPlainLeaf, exAttachPart, findAttachments, findAttachmentsList,
    strStartsWith, listStartsWith]

/-! ## C1 — attachment size validation before send -/

/-- When every attachment opens and is within the per-file limit, the
attachment loop of `sendEmail` reports no error. -/
theorem processAttachments_ok (fs : FileSystem) (atts : List String)
    (h : ∀ p ∈ atts, ∃ sz, fs p = some sz ∧ sz ≤ maxAttachmentSize) :
    processAttachments fs atts = none := by
  induction atts with
  | nil => rfl
  | cons p ps ih =>
    rcases h p (List.mem_cons_self p ps) with ⟨sz, hsz, hle⟩
    simp only [processAttachments, addAttachmentErr, hsz]
    rw [if_neg (not_lt.mpr hle)]
    exact ih (fun q hq => h q (List.mem_cons_of_mem p hq))

/-- The attachment loop fails on the first (leftmost, in draft order)
offending file: when every attachment before `q` opens and is within
the limit and `q` exceeds it, the error names exactly `q`, whatever
comes after it. -/
theorem processAttachments_first_offender (fs : FileSystem) (qs1 : List String)
    (q : String) (qs2 : List String)
    (hok : ∀ p ∈ qs1, ∃ sz, fs p = some sz ∧ sz ≤ maxAttachmentSize)
    (hbig : ∃ sz, fs q = some sz ∧ maxAttachmentSize < sz) :
    processAttachments fs (qs1 ++ q :: qs2)
      = some ("attachment too large: " ++ filepathBase q ++ " (max 25MB)") := by
  induction qs1 with
  | nil =>
    rcases hbig with ⟨sz, hsz, hlt⟩
    simp only [List.nil_append, processAttachments, addAttachmentErr, hsz]
    rw [if_pos hlt]
  | cons p ps ih =>
    rcases hok p (List.mem_cons_self p ps) with ⟨sz, hsz, hle⟩
    simp only [List.cons_append, processAttachments, addAttachmentErr, hsz]
    rw [if_neg (not_lt.mpr hle)]
    exact ih (fun r hr => hok r (List.mem_cons_of_mem p hr))

/-- C1 as stated is false: the size check is per file on the raw byte
size, not on the total encoded outgoing size. A draft with two 15 MiB
attachments has a total encoded size of 40 MiB — over the 25 MiB
bound — yet the send goes through (one network send is issued). -/
theorem C1_counterexample :
    totalEncodedAttachmentSize twoBigFs ["a.bin", "b.bin"] > maxAttachmentSize
    ∧ sendEmailRun twoBigFs "t@x" "" "" "S" "B" ["a.bin", "b.bin"]
        = SendOutcome.sent "t@x" "" "" "S" "B" ["a.bin", "b.bin"]
    ∧ networkSendCount (sendEmailRun twoBigFs "t@x" "" "" "S" "B" ["a.bin", "b.bin"]) = 1 :=
  ⟨by decide, rfl, rfl⟩

/-- C1 amended: each attachment's raw file size is checked individually
against the fixed 25 MiB limit, in draft order, before the message is
assembled or sent. A draft in which every attachment opens and is at
most 25 MiB is not rejected for size (one send of the whole message is
issued); and for any split of the draft's attachment list around a file
`q` that exceeds 25 MiB, where every file before `q` opens and is
within the limit — i.e. `q` is the first offending file in draft
order — the send fails with the descriptive error naming exactly the
base name of `q`, whatever follows it, and zero network send calls are
issued — no partial message is ever transmitted. -/
theorem C1_attachment_size_check (fs : FileSystem) (to_ cc bcc subject body : String)
    (attachments : List String) :
    ((∀ p ∈ attachments, ∃ sz, fs p = some sz ∧ sz ≤ maxAttachmentSize) →
      sendEmailRun fs to_ cc bcc subject body attachments
        = SendOutcome.sent to_ cc bcc subject body attachments
      ∧ networkSendCount (sendEmailRun fs to_ cc bcc subject body attachments) = 1)
    ∧ (∀ (q : String) (qs1 qs2 : List String), attachments = qs1 ++ q :: qs2 →
       (∀ p ∈ qs1, ∃ sz, fs p = some sz ∧ sz ≤ maxAttachmentSize) →
       (∃ sz, fs q = some sz ∧ maxAttachmentSize < sz) →
       sendEmailRun fs to_ cc bcc subject body attachments
           = SendOutcome.failed ("attachment too large: " ++ filepathBase q ++ " (max 25MB)")
         ∧ networkSendCount (sendEmailRun fs to_ cc bcc subject body attachments) = 0) := by
  constructor
  · intro h
    have hp := processAttachments_ok fs attachments h
    rw [sendEmailRun, hp]
    exact ⟨rfl, rfl⟩
  · intro q qs1 qs2 hdecomp hok hbig
    have heq := processAttachments_first_offender fs qs1 q qs2 hok hbig
    subst hdecomp
    refine ⟨?_, ?_⟩
    · rw [sendEmailRun, heq]
    · rw [sendEmailRun, heq]
      rfl

/-- Witness for C1 amended: a small attachment is sent; a draft whose
two attachments both exceed 25 MiB aborts naming the first of them,
with no network call. -/
theorem C1_attachment_size_check_witness :
    sendEmailRun smallFs "t@x" "" "" "S" "B" ["ok.bin"]
      = SendOutcome.sent "t@x" "" "" "S" "B" ["ok.bin"]
    ∧ sendEmailRun twoOverFs "t@x" "" "" "S" "B" ["big1.bin", "big2.bin"]
        = SendOutcome.failed "attachment too large: big1.bin (max 25MB)"
    ∧ networkSendCount
        (sendEmailRun twoOverFs "t@x" "" "" "S" "B" ["big1.bin", "big2.bin"]) = 0 := by
  have h1 := (C1_attachment_size_check smallFs "t@x" "" "" "S" "B" ["ok.bin"]).1
    (by
      intro p hp
      rw [List.mem_singleton] at hp
      subst hp
      exact ⟨100, rfl, by decide⟩)
  have h2 := (C1_attachment_size_check twoOverFs "t@x" "" "" "S" "B"
      ["big1.bin", "big2.bin"]).2 "big1.bin" [] ["big2.bin"] rfl
    (fun p hp => absurd hp (List.not_mem_nil p))
    ⟨26214401, rfl, by decide⟩
  exact ⟨h1.1, h2.1, h2.2⟩

/-! ## C8 — base64 decoding policy -/

theorem b64CharIdx_IdxChar (u : Bool) : ∀ i, i < 64 → b64CharIdx u (b64IdxChar u i) = some i := by
  cases u <;> decide

theorem b64IdxChar_ne (u : Bool) :
    ∀ i, i < 64 → b64IdxChar u i ≠ '=' ∧ b64IdxChar u i ≠ '\n' ∧ b64IdxChar u i ≠ '\r' := by
  cases u <;> decide

theorem b64Encode_length_mod (u : Bool) : ∀ bs, (b64Encode u bs).length % 4 = 0
  | [] => rfl
  | [_] => by simp [b64Encode]
  | [_, _] => by simp [b64Encode]
  | a :: b :: c :: rest => by
    have ih := b64Encode_length_mod u rest
    simp only [b64Encode, List.length_cons]
    omega

theorem b64Encode_not_crlf (u : Bool) :
    ∀ bs, (∀ x ∈ bs, x < 256) → ∀ c ∈ b64Encode u bs, c ≠ '\n' ∧ c ≠ '\r'
  | [], _, c, hc => absurd hc (List.not_mem_nil c)
  | [a], h, c, hc => by
    have ha : a < 256 := h a (by simp)
    rcases hc with _ | ⟨_, _ | ⟨_, _ | ⟨_, _ | ⟨_, hmem⟩⟩⟩⟩
    · exact (b64IdxChar_ne u (a / 4) (by omega)).2
    · exact (b64IdxChar_ne u (a % 4 * 16) (by omega)).2
    · exact ⟨by decide, by decide⟩
    · exact ⟨by decide, by decide⟩
    · exact absurd hmem (List.not_mem_nil c)
  | [a, b], h, c, hc => by
    have ha : a < 256 := h a (by simp)
    have hb : b < 256 := h b (by simp)
    rcases hc with _ | ⟨_, _ | ⟨_, _ | ⟨_, _ | ⟨_, hmem⟩⟩⟩⟩
    · exact (b64IdxChar_ne u (a / 4) (by omega)).2
    · exact (b64IdxChar_ne u (a % 4 * 16 + b / 16) (by omega)).2
    · exact (b64IdxChar_ne u (b % 16 * 4) (by omega)).2
    · exact ⟨by decide, by decide⟩
    · exact absurd hmem (List.not_mem_nil c)
  | a :: b :: bc :: rest, h, c, hc => by
    have ha : a < 256 := h a (by simp)
    have hb : b < 256 := h b (by simp)
    have hbc : bc < 256 := h bc (by simp)
    rcases hc with _ | ⟨_, _ | ⟨_, _ | ⟨_, _ | ⟨_, hmem⟩⟩⟩⟩
    · exact (b64IdxChar_ne u (a / 4) (by omega)).2
    · exact (b64IdxChar_ne u (a % 4 * 16 + b / 16) (by omega)).2
    · exact (b64IdxChar_ne u (b % 16 * 4 + bc / 64) (by omega)).2
    · exact (b64IdxChar_ne u (bc % 64) (by omega)).2
    · exact b64Encode_not_crlf u rest (fun x hx => h x (by simp [hx])) c hmem

theorem b64DecodeQuanta_encode (u : Bool) :
    ∀ bs, (∀ x ∈ bs, x < 256) → b64DecodeQuanta u (b64Encode u bs) = some bs
  | [], _ => rfl
  | [a], h => by
    have ha : a < 256 := h a (by simp)
    have hb0 : b64CharIdx u (b64IdxChar u (a / 4)) = some (a / 4) :=
      b64CharIdx_IdxChar u _ (by omega)
    have hb1 : b64CharIdx u (b64IdxChar u (a % 4 * 16)) = some (a % 4 * 16) :=
      b64CharIdx_IdxChar u _ (by omega)
    have harith : a / 4 * 4 + a % 4 * 16 / 16 = a := by omega
    show b64DecodeQuanta u
      [b64IdxChar u (a / 4), b64IdxChar u (a % 4 * 16), '=', '='] = some [a]
    simp [b64DecodeQuanta, hb0, hb1, harith]
    omega
  | [a, b], h => by
    have ha : a < 256 := h a (by simp)
    have hb : b < 256 := h b (by simp)
    have hb0 : b64CharIdx u (b64IdxChar u (a / 4)) = some (a / 4) :=
      b64CharIdx_IdxChar u _ (by omega)
    have hb1 : b64CharIdx u (b64IdxChar u (a % 4 * 16 + b / 16))
        = some (a % 4 * 16 + b / 16) := b64CharIdx_IdxChar u _ (by omega)
    have hb2 : b64CharIdx u (b64IdxChar u (b % 16 * 4)) = some (b % 16 * 4) :=
      b64CharIdx_IdxChar u _ (by omega)
    have hne2 : b64IdxChar u (b % 16 * 4) ≠ '=' := (b64IdxChar_ne u _ (by omega)).1
    have h1 : a / 4 * 4 + (a % 4 * 16 + b / 16) / 16 = a := by omega
    have h2 : (a % 4 * 16 + b / 16) % 16 * 16 + b % 16 * 4 / 4 = b := by omega
    show b64DecodeQuanta u
      [b64IdxChar u (a / 4), b64IdxChar u (a % 4 * 16 + b / 16),
       b64IdxChar u (b % 16 * 4), '='] = some [a, b]
    simp [b64DecodeQuanta, hb0, hb1, hb2, hne2, h1, h2]
    omega
  | a :: b :: c :: rest, h => by
    have ha : a < 256 := h a (by simp)
    have hb : b < 256 := h b (by simp)
    have hc : c < 256 := h c (by simp)
    have ih := b64DecodeQuanta_encode u rest (fun x hx => h x (by simp [hx]))
    have hb0 : b64CharIdx u (b64IdxChar u (a / 4)) = some (a / 4) :=
      b64CharIdx_IdxChar u _ (by omega)
    have hb1 : b64CharIdx u (b64IdxChar u (a % 4 * 16 + b / 16))
        = some (a % 4 * 16 + b / 16) := b64CharIdx_IdxChar u _ (by omega)
    have hb2 : b64CharIdx u (b64IdxChar u (b % 16 * 4 + c / 64))
        = some (b % 16 * 4 + c / 64) := b64CharIdx_IdxChar u _ (by omega)
    have hb3 : b64CharIdx u (b64IdxChar u (c % 64)) = some (c % 64) :=
      b64CharIdx_IdxChar u _ (by omega)
    have hne2 : b64IdxChar u (b % 16 * 4 + c / 64) ≠ '=' :=
      (b64IdxChar_ne u _ (by omega)).1
    have hne3 : b64IdxChar u (c % 64) ≠ '=' := (b64IdxChar_ne u _ (by omega)).1
    have h1 : a / 4 * 4 + (a % 4 * 16 + b / 16) / 16 = a := by omega
    have h2 : (a % 4 * 16 + b / 16) % 16 * 16 + (b % 16 * 4 + c / 64) / 4 = b := by omega
    have h3 : (b % 16 * 4 + c / 64) % 4 * 64 + c % 64 = c := by omega
    show b64DecodeQuanta u
      (b64IdxChar u (a / 4) :: b64IdxChar u (a % 4 * 16 + b / 16) ::
       b64IdxChar u (b % 16 * 4 + c / 64) :: b64IdxChar u (c % 64) ::
       b64Encode u rest) = some (a :: b :: c :: rest)
    simp [b64DecodeQuanta, hb0, hb1, hb2, hb3, hne2, hne3, ih, h1, h2, h3]

/-- Round trip through the Go encoder: decoding an encoded byte string
succeeds with the original bytes (either alphabet). -/
theorem b64Decode_encode (u : Bool) (bs : List Nat) (h : ∀ x ∈ bs, x < 256) :
    b64Decode u (b64Encode u bs) = some bs := by
  unfold b64Decode
  rw [List.filter_eq_self.mpr (fun c hc => by
    rcases b64Encode_not_crlf u bs h c hc with ⟨h1, h2⟩
    simp [h1, h2])]
  rw [if_pos (b64Encode_length_mod u bs)]
  exact b64DecodeQuanta_encode u bs h

/-- C8: decodeBody pads the input to a multiple of 4 with `=`, tries the
URL-safe alphabet, falls back to the standard alphabet, and yields the
literal marker string only when both fail; in particular any payload
that is a URL-safe encoding stripped of its padding decodes to the
original bytes after padding is restored, and any standard-alphabet
encoding still decodes (through the fallback when the URL-safe attempt
fails). -/
theorem C8_decodeBody :
    (∀ bs : List Nat, (∀ x ∈ bs, x < 256) →
        b64Decode true (b64Encode true bs) = some bs
        ∧ b64Decode false (b64Encode false bs) = some bs)
    ∧ (∀ s bs, b64Decode true (b64Pad s).data = some bs → decodeBody s = strOfBytes bs)
    ∧ (∀ s bs, b64Decode true (b64Pad s).data = none →
        b64Decode false (b64Pad s).data = some bs → decodeBody s = strOfBytes bs)
    ∧ (∀ s, b64Decode true (b64Pad s).data = none → b64Decode false (b64Pad s).data = none →
        decodeBody s = "Failed to decode body.")
    ∧ (∀ s, s.length % 4 ≠ 0 →
        b64Pad s = s ++ String.mk (List.replicate ((4 - s.length % 4) % 4) '='))
    ∧ (∀ s bs, (∀ x ∈ bs, x < 256) → b64Pad s = String.mk (b64Encode true bs) →
        decodeBody s = strOfBytes bs)
    ∧ (∀ s bs, (∀ x ∈ bs, x < 256) → b64Pad s = String.mk (b64Encode false bs) →
        b64Decode true (b64Pad s).data = none → decodeBody s = strOfBytes bs) := by
  have hbody : ∀ s, decodeBody s
      = (match b64Decode true (b64Pad s).data with
         | some bs => strOfBytes bs
         | none =>
           match b64Decode false (b64Pad s).data with
           | some bs => strOfBytes bs
           | none => "Failed to decode body.") := fun s => rfl
  have hurl : ∀ s bs, b64Decode true (b64Pad s).data = some bs →
      decodeBody s = strOfBytes bs := by
    intro s bs hs
    rw [hbody, hs]
  have hstd : ∀ s bs, b64Decode true (b64Pad s).data = none →
      b64Decode false (b64Pad s).data = some bs → decodeBody s = strOfBytes bs := by
    intro s bs hs1 hs2
    rw [hbody, hs1, hs2]
  refine ⟨fun bs h => ⟨b64Decode_encode true bs h, b64Decode_encode false bs h⟩,
    hurl, hstd, ?_, ?_, ?_, ?_⟩
  · intro s hs1 hs2
    rw [hbody, hs1, hs2]
  · intro s hlen
    unfold b64Pad
    rw [if_pos hlen]
  · intro s bs h hpad
    refine hurl s bs ?_
    rw [hpad]
    exact b64Decode_encode true bs h
  · intro s bs h hpad hfail
    refine hstd s bs hfail ?_
    rw [hpad]
    exact b64Decode_encode false bs h

/-- Witness for C8: a payload missing padding decodes after padding is
added; a payload valid only under the standard alphabet decodes through
the fallback; an invalid payload yields the marker string. -/
theorem C8_decodeBody_witness :
    decodeBody "AQI" = strOfBytes [1, 2]
    ∧ decodeBody "+/+/" = strOfBytes [251, 255, 191]
    ∧ decodeBody "!!!" = "Failed to decode body."
    ∧ decodeBody "aGVsbG8" = "hello" := by
  refine ⟨C8_decodeBody.2.2.2.2.2.1 "AQI" [1, 2] (by decide) (by decide),
          C8_decodeBody.2.2.1 "+/+/" [251, 255, 191] (by decide) (by decide),
          C8_decodeBody.2.2.2.1 "!!!" (by decide) (by decide), ?_⟩
  rw [C8_decodeBody.2.2.2.2.2.1 "aGVsbG8" [104, 101, 108, 108, 111] (by decide) (by decide)]
  decide

end GmailTui